import Mathlib

/-!
Verification development for the `woodywood117/interpreter` repository:
a lexer (`src/lexer/src/lib.rs`), token model (`src/token/src/lib.rs`),
AST model (`src/ast/src/lib.rs`) and Pratt parser (`src/parser/src/lib.rs`).

Modelling conventions:
* Rust `String` / `Vec<char>` are modelled as `List Char`.  The Rust lexer
  stores `input: Vec<char>` and works char by char, so this is exact.
* The Rust lexer state is `{input, position, read_position, ch}`.
  `read_char` maintains `read_position = position + 1` and
  `ch = input[position]` (or `'\x00'` past the end), and `Lexer::new` calls
  `read_char` once, so every observable state satisfies that invariant.
  The embedding therefore carries only `(input, position)`; `ch` and
  `peek()` are the derived functions `chAt input position`,
  `chAt input (position+1)`.
* Rust `char::is_alphabetic` / `char::is_whitespace` are Unicode
  predicates; the embedding uses Lean's ASCII `Char.isAlpha` /
  `Char.isWhitespace`.  Only the behaviour on non-ASCII letters and
  exotic whitespace differs; no claim depends on those characters.
* The Rust index-based scanning loops (`while self.ch.is_whitespace()`,
  the identifier / digit / string loops) are translated as structural
  recursion over the remaining input `input.drop position`, which is the
  exact list of characters the cursor can still visit.
* Fallible operations return `Option`; the parser returns a result type
  `POut` with explicit `err` (Rust `Err(..)`, message elided), `panic`
  (Rust `.unwrap()` on `None` / failed `parse::<i64>()`) and `diverge`
  (fuel exhaustion of the embedded loops) outcomes.
* Identifier names containing certain reserved words are renamed:
  the AST constructors `Prefix`/`Infix`/`Postfix` become
  `Pre`/`Bin`/`Post`, the precedence level for unary operators becomes
  `Unary`, and `parse_prefix_expression`/`parse_infix_expression`/
  `parse_postfix_expression` become `parsePreExpr`/`parseBinExpr`/
  `parsePostExpr`.
-/

/-- Token kinds, from `src/token/src/lib.rs` (`enum TokenType`). -/
inductive TokenType where
  | Let | Fn | True | False | If | Else | Return
  | Identifier | Integer | String
  | Plus | Increment | Minus | Decrement | Asterisk | Slash | Question
  | Percent | Assign | Bang | Equal | NotEqual
  | LessThan | GreaterThan | LessThanOrEqual | GreaterThanOrEqual
  | Comma | Semicolon | Colon | LeftParen | RightParen
  | LeftSquareBracket | RightSquareBracket | LeftCurlyBracket | RightCurlyBracket
  | Eof | Illegal
  deriving DecidableEq, Repr

/-- A lexical token, from `src/token/src/lib.rs` (`struct Token`). -/
structure Token where
  ttype : TokenType
  literal : List Char
  deriving DecidableEq, Repr

/-- The character under the cursor: `input[pos]`, or the `'\x00'` sentinel
once the cursor is at or past the end (`Lexer::read_char`). -/
def chAt (input : List Char) (pos : Nat) : Char :=
  input.getD pos '\x00'

/-- Length of the maximal whitespace run at the head of the remaining
input: the loop `while self.ch.is_whitespace() { self.read_char(); }`
advances the cursor by exactly this amount. -/
def wsCount : List Char → Nat
  | [] => 0
  | c :: rest => if c.isWhitespace then wsCount rest + 1 else 0

/-- Cursor position after the whitespace-skipping loop at the top of
`Lexer::next`. -/
def skipWs (input : List Char) (pos : Nat) : Nat :=
  pos + wsCount (input.drop pos)

/-- Characters collected by the identifier loop
`while self.ch.is_alphabetic() || self.ch == '_'` of `Lexer::next`. -/
def identTake : List Char → List Char
  | [] => []
  | c :: rest => if c.isAlpha || c = '_' then c :: identTake rest else []

/-- Characters collected by the integer loop
`while self.ch.is_digit(10)` of `Lexer::next`. -/
def digitTake : List Char → List Char
  | [] => []
  | c :: rest => if c.isDigit then c :: digitTake rest else []

/-- The string-literal loop of `Lexer::next`, run on the input remaining
after the opening quote.  Returns `(collected chars, cursor advance,
success)`: on success the collected chars include the closing quote and
the cursor moves past it; on `'\x00'`/newline the cursor stays at the
offending character and the partial text is returned. -/
def strScan : List Char → List Char × Nat × Bool
  | [] => ([], 0, false)
  | c :: rest =>
    if c = '"' then ([c], 1, true)
    else if c = '\x00' ∨ c = '\n' then ([], 0, false)
    else
      let r := strScan rest
      (c :: r.1, r.2.1 + 1, r.2.2)

/-- The keyword table of `Lexer::next` (the `match ident.as_str()`). -/
def keywordToken (lit : List Char) : Token :=
  if lit = "let".toList then ⟨TokenType.Let, lit⟩
  else if lit = "fn".toList then ⟨TokenType.Fn, lit⟩
  else if lit = "true".toList then ⟨TokenType.True, lit⟩
  else if lit = "false".toList then ⟨TokenType.False, lit⟩
  else if lit = "if".toList then ⟨TokenType.If, lit⟩
  else if lit = "else".toList then ⟨TokenType.Else, lit⟩
  else if lit = "return".toList then ⟨TokenType.Return, lit⟩
  else ⟨TokenType.Identifier, lit⟩

/-- Entry guard of the identifier arm: the Rust pattern
`'a'..='z' | 'A'..='Z' | '_'`. -/
def isIdentStart (c : Char) : Bool :=
  (('a' ≤ c ∧ c ≤ 'z') ∨ ('A' ≤ c ∧ c ≤ 'Z') ∨ c = '_' : Prop) |> decide

/-- Which arm of the `match self.ch` of `Lexer::next` a character
selects, in the source's arm order (specific characters, then the
sentinel, then the identifier-start range pattern, then digits, then the
string quote, then the wildcard). -/
inductive CharClass where
  | plus | minus | asterisk | slash | question | percent | assign | bang
  | less | greater | comma | semicolon | colon | lparen | rparen
  | lbracket | rbracket | lbrace | rbrace | sentinel | identStart | digit
  | quote | other
  deriving DecidableEq, Repr

/-- See `CharClass`: arm selection of the `match self.ch` dispatch. -/
def charClass (c : Char) : CharClass :=
  if c = '+' then .plus
  else if c = '-' then .minus
  else if c = '*' then .asterisk
  else if c = '/' then .slash
  else if c = '?' then .question
  else if c = '%' then .percent
  else if c = '=' then .assign
  else if c = '!' then .bang
  else if c = '<' then .less
  else if c = '>' then .greater
  else if c = ',' then .comma
  else if c = ';' then .semicolon
  else if c = ':' then .colon
  else if c = '(' then .lparen
  else if c = ')' then .rparen
  else if c = '[' then .lbracket
  else if c = ']' then .rbracket
  else if c = '{' then .lbrace
  else if c = '}' then .rbrace
  else if c = '\x00' then .sentinel
  else if isIdentStart c then .identStart
  else if c.isDigit then .digit
  else if c = '"' then .quote
  else .other

/-- The `match self.ch` dispatch of `Lexer::next`, run at the cursor
position `p` reached after skipping whitespace.  Always produces a
token; returns it with the new cursor position.  The `=`/`!`/`<`/`>`
and `+`/`-` arms use one character of lookahead for the two-character
operators, consuming it only on a match. -/
def lexDispatch (input : List Char) (p : Nat) : Token × Nat :=
  match charClass (chAt input p) with
  | .plus =>
    if chAt input (p+1) = '+' then (⟨TokenType.Increment, "++".toList⟩, p+2)
    else (⟨TokenType.Plus, [chAt input p]⟩, p+1)
  | .minus =>
    if chAt input (p+1) = '-' then (⟨TokenType.Decrement, "--".toList⟩, p+2)
    else (⟨TokenType.Minus, [chAt input p]⟩, p+1)
  | .asterisk => (⟨TokenType.Asterisk, [chAt input p]⟩, p+1)
  | .slash => (⟨TokenType.Slash, [chAt input p]⟩, p+1)
  | .question => (⟨TokenType.Question, [chAt input p]⟩, p+1)
  | .percent => (⟨TokenType.Percent, [chAt input p]⟩, p+1)
  | .assign =>
    if chAt input (p+1) = '=' then (⟨TokenType.Equal, "==".toList⟩, p+2)
    else (⟨TokenType.Assign, [chAt input p]⟩, p+1)
  | .bang =>
    if chAt input (p+1) = '=' then (⟨TokenType.NotEqual, "!=".toList⟩, p+2)
    else (⟨TokenType.Bang, [chAt input p]⟩, p+1)
  | .less =>
    if chAt input (p+1) = '=' then (⟨TokenType.LessThanOrEqual, "<=".toList⟩, p+2)
    else (⟨TokenType.LessThan, [chAt input p]⟩, p+1)
  | .greater =>
    if chAt input (p+1) = '=' then (⟨TokenType.GreaterThanOrEqual, ">=".toList⟩, p+2)
    else (⟨TokenType.GreaterThan, [chAt input p]⟩, p+1)
  | .comma => (⟨TokenType.Comma, [chAt input p]⟩, p+1)
  | .semicolon => (⟨TokenType.Semicolon, [chAt input p]⟩, p+1)
  | .colon => (⟨TokenType.Colon, [chAt input p]⟩, p+1)
  | .lparen => (⟨TokenType.LeftParen, [chAt input p]⟩, p+1)
  | .rparen => (⟨TokenType.RightParen, [chAt input p]⟩, p+1)
  | .lbracket => (⟨TokenType.LeftSquareBracket, [chAt input p]⟩, p+1)
  | .rbracket => (⟨TokenType.RightSquareBracket, [chAt input p]⟩, p+1)
  | .lbrace => (⟨TokenType.LeftCurlyBracket, [chAt input p]⟩, p+1)
  | .rbrace => (⟨TokenType.RightCurlyBracket, [chAt input p]⟩, p+1)
  | .sentinel => (⟨TokenType.Eof, [chAt input p]⟩, p+1)
  | .identStart =>
    (keywordToken (identTake (input.drop p)), p + (identTake (input.drop p)).length)
  | .digit =>
    (⟨TokenType.Integer, digitTake (input.drop p)⟩, p + (digitTake (input.drop p)).length)
  | .quote =>
    (⟨if (strScan (input.drop (p+1))).2.2 then TokenType.String else TokenType.Illegal,
      chAt input p :: (strScan (input.drop (p+1))).1⟩,
     p + 1 + (strScan (input.drop (p+1))).2.1)
  | .other => (⟨TokenType.Illegal, [chAt input p]⟩, p+1)

/-- `Lexer::next` (`impl Iterator for Lexer`): skip whitespace, return
`none` once the read head is past end-of-input plus the sentinel
(`read_position > len + 1`, i.e. `position > len`), otherwise dispatch
on the current character via `lexDispatch`. -/
def lexNext (input : List Char) (pos : Nat) : Option Token × Nat :=
  let p := skipWs input pos
  if p > input.length then (none, p)
  else
    let r := lexDispatch input p
    (some r.1, r.2)

/-- Fuel-indexed iteration of `Lexer::next` from a cursor position,
accumulating the produced tokens in order.  Each produced token strictly
advances the cursor and production stops once the cursor passes the
sentinel, so `input.length + 2` fuel always suffices (see
`lexGo_fuel_stable`). -/
def lexGo (input : List Char) : Nat → Nat → List Token
  | 0, _ => []
  | fuel + 1, pos =>
    match lexNext input pos with
    | (none, _) => []
    | (some t, pos') => t :: lexGo input fuel pos'

/-- The complete token sequence of a source string: iterate `next()` on
a fresh `Lexer::new` until it returns `None`. -/
def lexTokens (input : List Char) : List Token :=
  lexGo input (input.length + 2) 0

/-! ## AST model (`src/ast/src/lib.rs`)

The `Identifier` struct's two fields are inlined into the nodes that
carry it.  Constructor names: `Pre`, `Bin`, `Post` stand for the source
structs `Prefix`, `Infix`, `Postfix`. -/

/-- `enum Expression` of `src/ast/src/lib.rs`. -/
inductive Expression where
  | IntegerLiteral (token : Token) (value : Int)
  | StringLiteral (token : Token)
  | BooleanLiteral (token : Token)
  | Identifier (token : Token) (value : List Char)
  | Pre (operator : Token) (right : Expression)
  | Bin (left : Expression) (operator : Token) (right : Expression)
  | Post (left : Expression) (operator : Token)
  | Ternary (condition : Expression) (ifTrue : Expression) (ifFalse : Expression)
  deriving DecidableEq, Repr

/-- `enum Statement` of `src/ast/src/lib.rs` (each variant's struct is
inlined; `LetStatement.name` is the pair `nameTok`/`nameVal`). -/
inductive Statement where
  | LetStatement (token : Token) (nameTok : Token) (nameVal : List Char)
      (value : Expression)
  | ReturnStatement (token : Token) (returnValue : Expression)
  | ExpressionStatement (token : Token) (expression : Expression)
  deriving DecidableEq, Repr

/-- `struct Program` of `src/ast/src/lib.rs`. -/
structure Program where
  statements : List Statement
  deriving DecidableEq, Repr

/-- `Expression::string` of `src/ast/src/lib.rs` (each node's `string()`
method). -/
def Expression.render : Expression → List Char
  | .IntegerLiteral token _ => token.literal
  | .StringLiteral token => token.literal
  | .BooleanLiteral token => token.literal
  | .Identifier _ value => value
  | .Pre operator right =>
      ['('] ++ operator.literal ++ right.render ++ [')']
  | .Bin left operator right =>
      ['('] ++ left.render ++ [' '] ++ operator.literal ++ [' ']
        ++ right.render ++ [')']
  | .Post left operator =>
      ['('] ++ left.render ++ operator.literal ++ [')']
  | .Ternary condition ifTrue ifFalse =>
      condition.render ++ " ? ".toList ++ ifTrue.render ++ " : ".toList
        ++ ifFalse.render

/-- `Statement::string` of `src/ast/src/lib.rs`. -/
def Statement.render : Statement → List Char
  | .LetStatement token _ nameVal value =>
      token.literal ++ [' '] ++ nameVal ++ " = ".toList ++ value.render ++ [';']
  | .ReturnStatement token returnValue =>
      token.literal ++ [' '] ++ returnValue.render ++ [';']
  | .ExpressionStatement _ expression =>
      expression.render ++ [';']

/-- `Program::string` of `src/ast/src/lib.rs`: concatenate the
statements' renderings in order. -/
def Program.render (p : Program) : List Char :=
  (p.statements.map Statement.render).flatten

/-! ## The parser (`src/parser/src/lib.rs`) -/

/-- `enum Precedence` of `src/parser/src/lib.rs`; `Unary` is the source
variant `Prefix` (the precedence of unary operators). -/
inductive Precedence where
  | Lowest | Ternary | Equals | LessGreater | Sum | Product | Unary
  | Call | Index
  deriving DecidableEq, Repr

/-- Numeric rank of a precedence level, in declaration order: the
derived `PartialOrd`/`Ord` of the Rust enum compares by this rank. -/
def Precedence.rank : Precedence → Nat
  | .Lowest => 0
  | .Ternary => 1
  | .Equals => 2
  | .LessGreater => 3
  | .Sum => 4
  | .Product => 5
  | .Unary => 6
  | .Call => 7
  | .Index => 8

/-- The Rust `<` comparison on `Precedence` (derived `PartialOrd`). -/
def Precedence.lt (a b : Precedence) : Bool :=
  a.rank < b.rank

/-- `precedence_for_op` of `src/parser/src/lib.rs`. -/
def precedenceForOp : TokenType → Precedence
  | .Question => .Ternary
  | .Equal | .NotEqual => .Equals
  | .LessThan | .GreaterThan | .LessThanOrEqual | .GreaterThanOrEqual =>
      .LessGreater
  | .Plus | .Minus => .Sum
  | .Asterisk | .Slash | .Percent => .Product
  | .LeftParen => .Call
  | .LeftSquareBracket => .Index
  | _ => .Lowest

/-- `is_infix_op` of `src/parser/src/lib.rs`. -/
def isBinOp : TokenType → Bool
  | .Plus | .Minus | .Asterisk | .Slash | .Percent | .Equal | .NotEqual
  | .LessThan | .GreaterThan | .LessThanOrEqual | .GreaterThanOrEqual => true
  | _ => false

/-- `is_postfix_op` of `src/parser/src/lib.rs`. -/
def isPostOp : TokenType → Bool
  | .Increment | .Decrement => true
  | _ => false

/-- The token kinds the parser accepts as unary operators (the match arm
`Bang | Minus | Increment | Decrement` of `parse_expression`). -/
def isPreOp : TokenType → Bool
  | .Bang | .Minus | .Increment | .Decrement => true
  | _ => false

/-- Rust `str::parse::<i64>()` restricted to the literals the lexer can
produce (runs of decimal digits, no sign): the numeric value when the
string is a nonempty digit run whose value fits in `i64`, otherwise
`none` (Rust `Err`, which `parse_expression` unwraps — a panic). -/
def digitsToNat (s : List Char) : Nat :=
  s.foldl (fun acc c => acc * 10 + (c.toNat - 48)) 0

/-- The `i64::MAX` bound `2^63 - 1`. -/
def maxI64 : Nat := 9223372036854775807

/-- See `digitsToNat`: the modelled `parse::<i64>()`. -/
def parseI64 (s : List Char) : Option Int :=
  if s = [] then none
  else if s.all Char.isDigit then
    if digitsToNat s ≤ maxI64 then some (digitsToNat s) else none
  else none

/-- Parser state (`struct Parser` of `src/parser/src/lib.rs`): the lexer
cursor plus current and peek tokens. -/
structure PState where
  linput : List Char
  lpos : Nat
  curToken : Option Token
  peekToken : Option Token
  deriving DecidableEq, Repr

/-- Outcome of a parsing function: `ok` (Rust `Ok`), `err` (Rust
`Err(..)`, messages elided), `panic` (a Rust `.unwrap()` failure),
`diverge` (the embedded loop's fuel ran out, i.e. the Rust code does
not return). -/
inductive POut (α : Type) where
  | ok (val : α) (s : PState)
  | err
  | panic
  | diverge
  deriving DecidableEq, Repr

/-- `Parser::next_token`: shift peek into current, pull a new peek from
the lexer. -/
def nextToken (s : PState) : PState :=
  let r := lexNext s.linput s.lpos
  ⟨s.linput, r.2, s.peekToken, r.1⟩

/-- `Parser::new`: both token slots start as `Illegal` with empty
literal, then `next_token` runs twice. -/
def parserNew (input : List Char) : PState :=
  nextToken (nextToken ⟨input, 0, some ⟨TokenType.Illegal, []⟩,
    some ⟨TokenType.Illegal, []⟩⟩)

/-- `Parser::current_token_is`. -/
def currentTokenIs (s : PState) (t : TokenType) : Bool :=
  match s.curToken with
  | none => false
  | some tok => tok.ttype = t

/-- `Parser::peek_token_is`. -/
def peekTokenIs (s : PState) (t : TokenType) : Bool :=
  match s.peekToken with
  | none => false
  | some tok => tok.ttype = t

/-- `Parser::expect_peek`: advance on a match, otherwise fail (`none`
models the `Err` branch). -/
def expectPeek (s : PState) (t : TokenType) : Option PState :=
  if peekTokenIs s t then some (nextToken s) else none

/-- `Parser::parse_postfix_expression` (not recursive): wrap `left` in a
`Postfix` node carrying the current token. -/
def parsePostExpr (s : PState) (left : Expression) : POut Expression :=
  match s.curToken with
  | none => POut.panic
  | some token => POut.ok (Expression.Post left token) s

mutual

/-- The primary/prefix block of `Parser::parse_expression` (the
`let mut left: Expression = match current.ttype` expression): resolve a
primary or unary-prefix production for the current token `current`
(which is `s.curToken`'s payload), folding an immediately following
postfix operator for Identifier/Integer primaries and for the
`-`/`++`/`--` prefix results.  Every `.unwrap()` of the source is
modelled: `POut.panic` when the unwrapped option is `none`, including
the `parse::<i64>().unwrap()` on integer literals. -/
def parsePrimary : Nat → Token → PState → POut Expression
  | 0, _, _ => POut.diverge
  | fuel + 1, current, s =>
    match current.ttype with
    | .Identifier =>
      let left := Expression.Identifier current current.literal
      (match s.peekToken with
       | none => POut.panic
       | some pk =>
         if isPostOp pk.ttype then parsePostExpr (nextToken s) left
         else POut.ok left s)
    | .Integer =>
      (match parseI64 current.literal with
       | none => POut.panic
       | some v =>
         let left := Expression.IntegerLiteral current v
         (match s.peekToken with
          | none => POut.panic
          | some pk =>
            if isPostOp pk.ttype then parsePostExpr (nextToken s) left
            else POut.ok left s))
    | .String => POut.ok (Expression.StringLiteral current) s
    | .True => POut.ok (Expression.BooleanLiteral current) s
    | .False => POut.ok (Expression.BooleanLiteral current) s
    | .Bang | .Minus | .Increment | .Decrement =>
      (match parsePreExpr fuel s with
       | POut.ok left s1 =>
         (match current.ttype with
          | .Minus | .Increment | .Decrement =>
            (match s1.peekToken with
             | none => POut.panic
             | some pk =>
               if isPostOp pk.ttype then parsePostExpr (nextToken s1) left
               else POut.ok left s1)
          | _ => POut.ok left s1)
       | other => other)
    | _ => POut.err

/-- `Parser::parse_expression`: resolve the primary/prefix production
via `parsePrimary`, then run the operator-folding loop
`parseExprLoop`. -/
def parseExpression : Nat → Precedence → PState → POut Expression
  | 0, _, _ => POut.diverge
  | fuel + 1, precedence, s =>
    match s.curToken with
    | none => POut.panic
    | some current =>
      match parsePrimary fuel current s with
      | POut.ok left s1 => parseExprLoop fuel precedence left s1
      | other => other

/-- The folding loop of `parse_expression`:
`while !peek_token_is(Semicolon) && precedence < peek_precedence()`,
with the body guarded by `is_infix_op` — when the guard is false the
loop repeats with unchanged state (the source has no `else`). -/
def parseExprLoop : Nat → Precedence → Expression → PState → POut Expression
  | 0, _, _, _ => POut.diverge
  | fuel + 1, precedence, left, s =>
    if peekTokenIs s .Semicolon then POut.ok left s
    else
      match s.peekToken with
      | none => POut.panic
      | some pk =>
        if precedence.lt (precedenceForOp pk.ttype) then
          if isBinOp pk.ttype then
            match parseBinExpr fuel left (nextToken s) with
            | POut.ok left2 s2 => parseExprLoop fuel precedence left2 s2
            | other => other
          else parseExprLoop fuel precedence left s
        else POut.ok left s

/-- `Parser::parse_prefix_expression`: reject a String lookahead, then
parse the operand at `Prefix` (here `Unary`) precedence. -/
def parsePreExpr : Nat → PState → POut Expression
  | 0, _ => POut.diverge
  | fuel + 1, s =>
    match s.peekToken with
    | none => POut.panic
    | some pk =>
      if pk.ttype = .String then POut.err
      else
        match s.curToken with
        | none => POut.panic
        | some token =>
          match parseExpression fuel .Unary (nextToken s) with
          | POut.ok right s1 => POut.ok (Expression.Pre token right) s1
          | other => other

/-- `Parser::parse_infix_expression`: record the current operator and
its precedence, advance, and parse the right operand at that
precedence. -/
def parseBinExpr : Nat → Expression → PState → POut Expression
  | 0, _, _ => POut.diverge
  | fuel + 1, left, s =>
    match s.curToken with
    | none => POut.panic
    | some token =>
      match parseExpression fuel (precedenceForOp token.ttype) (nextToken s) with
      | POut.ok right s1 => POut.ok (Expression.Bin left token right) s1
      | other => other

/-- `Parser::parse_let_statement`. -/
def parseLetStatement : Nat → PState → POut Statement
  | 0, _ => POut.diverge
  | fuel + 1, s =>
    match s.curToken with
    | none => POut.panic
    | some token =>
      match expectPeek s .Identifier with
      | none => POut.err
      | some s1 =>
        match s1.curToken with
        | none => POut.panic
        | some nameTok =>
          match expectPeek s1 .Assign with
          | none => POut.err
          | some s2 =>
            match parseExpression fuel .Lowest (nextToken s2) with
            | POut.ok value s3 =>
              let s4 := if peekTokenIs s3 .Semicolon then nextToken s3 else s3
              POut.ok (Statement.LetStatement token nameTok nameTok.literal value) s4
            | POut.err => POut.err
            | POut.panic => POut.panic
            | POut.diverge => POut.diverge

/-- `Parser::parse_return_statement`. -/
def parseReturnStatement : Nat → PState → POut Statement
  | 0, _ => POut.diverge
  | fuel + 1, s =>
    match s.curToken with
    | none => POut.panic
    | some token =>
      match parseExpression fuel .Lowest (nextToken s) with
      | POut.ok value s1 =>
        let s2 := if peekTokenIs s1 .Semicolon then nextToken s1 else s1
        POut.ok (Statement.ReturnStatement token value) s2
      | POut.err => POut.err
      | POut.panic => POut.panic
      | POut.diverge => POut.diverge

/-- `Parser::parse_expression_statement`. -/
def parseExpressionStatement : Nat → PState → POut Statement
  | 0, _ => POut.diverge
  | fuel + 1, s =>
    match s.curToken with
    | none => POut.panic
    | some token =>
      match parseExpression fuel .Lowest s with
      | POut.ok expression s1 =>
        let s2 := if peekTokenIs s1 .Semicolon then nextToken s1 else s1
        POut.ok (Statement.ExpressionStatement token expression) s2
      | POut.err => POut.err
      | POut.panic => POut.panic
      | POut.diverge => POut.diverge

/-- `Parser::parse_statement`: dispatch on the current token. -/
def parseStatement : Nat → PState → POut Statement
  | 0, _ => POut.diverge
  | fuel + 1, s =>
    match s.curToken with
    | some token =>
      match token.ttype with
      | .Let => parseLetStatement fuel s
      | .Return => parseReturnStatement fuel s
      | _ => parseExpressionStatement fuel s
    | none => POut.err

/-- The statement loop of `Parser::parse_program`:
`while cur_token != None && !current_token_is(Eof)`. -/
def parseProgramLoop : Nat → List Statement → PState → POut Program
  | 0, _, _ => POut.diverge
  | fuel + 1, acc, s =>
    if s.curToken ≠ none ∧ ¬ currentTokenIs s .Eof then
      match parseStatement fuel s with
      | POut.ok stmt s1 => parseProgramLoop fuel (acc ++ [stmt]) (nextToken s1)
      | POut.err => POut.err
      | POut.panic => POut.panic
      | POut.diverge => POut.diverge
    else POut.ok ⟨acc⟩ s

end

/-- `Parser::parse_program` run on a fresh parser over a fresh lexer:
the full pipeline from source text to `Result<Program, String>`. -/
def parseInput (fuel : Nat) (input : List Char) : POut Program :=
  parseProgramLoop fuel [] (parserNew input)

/-- The continuation condition of the string-literal loop: the loop goes
on while the current character is neither the closing quote nor one of
the two abort characters (`'\x00'`, newline). -/
def strKeep (c : Char) : Bool :=
  (¬(c = '"' ∨ c = '\x00' ∨ c = '\n') : Prop) |> decide

/-! ## Nontermination of the expression folding loop on `a(` -/

/-- The `Identifier` primary for `a`, as built by `parse_expression` on
the input `a(`. -/
def stuckLeft : Expression :=
  Expression.Identifier ⟨TokenType.Identifier, ['a']⟩ ['a']

/-- The parser state reached on the input `a(` when the folding loop of
`parse_expression` starts: current token `a`, peek token `(`. -/
def stuckState : PState :=
  ⟨"a(".toList, 2, some ⟨TokenType.Identifier, ['a']⟩,
    some ⟨TokenType.LeftParen, ['(']⟩⟩

/-! ## Well-formedness of parsed ASTs -/

/-- An expression is well-formed when every `Prefix` operator is one of
`! - ++ --`, every `Infix` operator is one of the eleven binary
operators of `is_infix_op`, every `Postfix` operator is `++`/`--`, and
no `Ternary` node occurs. -/
def wfExpr : Expression → Bool
  | .IntegerLiteral _ _ => true
  | .StringLiteral _ => true
  | .BooleanLiteral _ => true
  | .Identifier _ _ => true
  | .Pre operator right => isPreOp operator.ttype && wfExpr right
  | .Bin left operator right =>
      isBinOp operator.ttype && wfExpr left && wfExpr right
  | .Post left operator => isPostOp operator.ttype && wfExpr left
  | .Ternary _ _ _ => false

/-- A statement is well-formed when its embedded expression is. -/
def wfStmt : Statement → Bool
  | .LetStatement _ _ _ value => wfExpr value
  | .ReturnStatement _ returnValue => wfExpr returnValue
  | .ExpressionStatement _ expression => wfExpr expression

/-- A program is well-formed when all its statements are. -/
def wfProgram (p : Program) : Bool :=
  p.statements.all wfStmt

/-- Whether a parse result is the `Ok` branch of the Rust `Result`. -/
def POut.isOk {α : Type} : POut α → Bool
  | .ok _ _ => true
  | _ => false

/-- The parsed program of an `ok` result (`⟨[]⟩` otherwise). -/
def progOf : POut Program → Program
  | .ok p _ => p
  | _ => ⟨[]⟩

/-- The final parser state of an `ok` result. -/
def stateOf : POut Program → PState
  | .ok _ s => s
  | _ => ⟨[], 0, none, none⟩

/-- Whether a statement is an `ExpressionStatement`. -/
def isExprStatement : Statement → Bool
  | .ExpressionStatement _ _ => true
  | _ => false


example : lexTokens "a1".toList =
    [⟨TokenType.Identifier, ['a']⟩, ⟨TokenType.Integer, ['1']⟩,
     ⟨TokenType.Eof, ['\x00']⟩] := by decide

example : lexTokens "\"ab".toList =
    [⟨TokenType.Illegal, ['"', 'a', 'b']⟩, ⟨TokenType.Eof, ['\x00']⟩] := by decide

example : lexTokens ['\x00', 'a'] =
    [⟨TokenType.Eof, ['\x00']⟩, ⟨TokenType.Identifier, ['a']⟩,
     ⟨TokenType.Eof, ['\x00']⟩] := by decide

example :
    (match parseInput 64 "5 + 5 * 2;".toList with
     | POut.ok p _ => p.render
     | _ => []) = "(5 + (5 * 2));".toList := by decide

example :
    (match parseInput 64 "a - b - c".toList with
     | POut.ok p _ => p.render
     | _ => []) = "((a - b) - c);".toList := by decide

example :
    (match parseInput 64 "a++ + b".toList with
     | POut.ok p _ => p.render
     | _ => []) = "((a++) + b);".toList := by decide

example : parseInput 64 "!\"x\"".toList = POut.err := by decide

example : parseInput 64 "99999999999999999999".toList = POut.panic := by decide

example : parseInput 20 "a(".toList = POut.diverge := by decide

example : parseInput 64 "a(".toList = POut.diverge := by decide

example :
    (match parseInput 64 "a - \"x\"".toList with
     | POut.ok p _ => p.render
     | _ => []) = "(a - \"x\");".toList := by decide

example : lexTokens "a - \"x\"".toList =
    [⟨TokenType.Identifier, ['a']⟩, ⟨TokenType.Minus, ['-']⟩,
     ⟨TokenType.String, ['"', 'x', '"']⟩, ⟨TokenType.Eof, ['\x00']⟩] := by decide

/-! ## Lexer lemmas -/

theorem wsCount_le (l : List Char) : wsCount l ≤ l.length := by
  induction l with
  | nil => simp [wsCount]
  | cons c r ih =>
    by_cases h : c.isWhitespace <;> simp [wsCount, h] <;> omega

theorem skipWs_ge (input : List Char) (pos : Nat) : pos ≤ skipWs input pos :=
  Nat.le_add_right pos _

theorem skipWs_le (input : List Char) (pos : Nat) (h : pos ≤ input.length) :
    skipWs input pos ≤ input.length := by
  have h1 := wsCount_le (input.drop pos)
  simp only [List.length_drop] at h1
  unfold skipWs
  omega

theorem chAt_sentinel (input : List Char) (pos : Nat) (h : input.length ≤ pos) :
    chAt input pos = '\x00' :=
  List.getD_eq_default input '\x00' h

theorem chAt_ne_lt (input : List Char) (pos : Nat) (h : chAt input pos ≠ '\x00') :
    pos < input.length := by
  by_contra hc
  exact h (chAt_sentinel input pos (by omega))

theorem chAt_drop (input : List Char) (pos : Nat) :
    chAt input pos = (input.drop pos).headD '\x00' := by
  induction input generalizing pos with
  | nil => simp [chAt]
  | cons c r ih =>
    cases pos with
    | zero => simp [chAt]
    | succ n => simpa [chAt] using ih n

theorem drop_eq_chAt_cons (input : List Char) (pos : Nat) (h : pos < input.length) :
    input.drop pos = chAt input pos :: input.drop (pos + 1) := by
  rw [List.drop_eq_getElem_cons h, chAt, List.getD_eq_getElem input '\x00' h]

theorem skipWs_eq_self (input : List Char) (pos : Nat)
    (h : (chAt input pos).isWhitespace = false) : skipWs input pos = pos := by
  unfold skipWs
  rcases hd : input.drop pos with _ | ⟨c, r⟩
  · simp [wsCount]
  · have hc : c = chAt input pos := by rw [chAt_drop, hd]; rfl
    rw [wsCount]
    simp [hc, h]

theorem isAlpha_not_digit (c : Char) (h : c.isAlpha = true) : c.isDigit = false := by
  simp only [Char.isAlpha, Char.isUpper, Char.isLower, Char.isDigit, Bool.or_eq_true,
    Bool.and_eq_true, decide_eq_true_eq] at h ⊢
  have h1 : (65 ≤ c.val.toNat ∧ c.val.toNat ≤ 90) ∨
      (97 ≤ c.val.toNat ∧ c.val.toNat ≤ 122) := h
  simp only [Bool.and_eq_false_iff, decide_eq_false_iff_not]
  right
  intro hc
  have hc' : c.val.toNat ≤ 57 := hc
  omega

theorem identStart_cont (c : Char) (h : isIdentStart c = true) :
    (c.isAlpha || c = '_') = true := by
  simp only [isIdentStart, decide_eq_true_eq] at h
  simp only [Bool.or_eq_true, Char.isAlpha, Char.isUpper, Char.isLower, Bool.and_eq_true,
    decide_eq_true_eq]
  rcases h with ⟨h1, h2⟩ | ⟨h1, h2⟩ | h
  · have h1' : ('a').val.toNat ≤ c.val.toNat := h1
    have h2' : c.val.toNat ≤ ('z').val.toNat := h2
    exact Or.inl (Or.inr ⟨h1', h2'⟩)
  · have h1' : ('A').val.toNat ≤ c.val.toNat := h1
    have h2' : c.val.toNat ≤ ('Z').val.toNat := h2
    exact Or.inl (Or.inl ⟨h1', h2'⟩)
  · exact Or.inr (by simp [h])

theorem identTake_length_le (l : List Char) : (identTake l).length ≤ l.length := by
  induction l with
  | nil => simp [identTake]
  | cons c r ih =>
    by_cases h : (c.isAlpha || c = '_') = true <;> simp [identTake, h] <;> omega

theorem digitTake_length_le (l : List Char) : (digitTake l).length ≤ l.length := by
  induction l with
  | nil => simp [digitTake]
  | cons c r ih =>
    by_cases h : c.isDigit = true <;> simp [digitTake, h] <;> omega

theorem strScan_length_le (l : List Char) : (strScan l).2.1 ≤ l.length := by
  induction l with
  | nil => simp [strScan]
  | cons c r ih =>
    by_cases h1 : c = '"'
    · simp [strScan, h1]
    · by_cases h2 : c = '\x00' ∨ c = '\n' <;> simp [strScan, h1, h2] <;> omega

theorem identTake_mem (l : List Char) (a : Char) (h : a ∈ identTake l) :
    (a.isAlpha || a = '_') = true := by
  induction l with
  | nil => simp [identTake] at h
  | cons c r ih =>
    by_cases hc : (c.isAlpha || c = '_') = true
    · rw [identTake, if_pos hc] at h
      rcases List.mem_cons.mp h with h | h
      · exact h ▸ hc
      · exact ih h
    · rw [identTake, if_neg hc] at h
      simp at h

theorem identTake_at_pos (input : List Char) (p : Nat)
    (h : isIdentStart (chAt input p) = true) :
    1 ≤ (identTake (input.drop p)).length := by
  have hne : chAt input p ≠ '\x00' := by
    intro he
    rw [he] at h
    simp [isIdentStart] at h
  have hp := chAt_ne_lt input p hne
  rw [drop_eq_chAt_cons input p hp, identTake, if_pos (identStart_cont _ h)]
  simp

theorem digitTake_at_pos (input : List Char) (p : Nat)
    (h : (chAt input p).isDigit = true) :
    1 ≤ (digitTake (input.drop p)).length := by
  have hne : chAt input p ≠ '\x00' := by
    intro he
    rw [he] at h
    simp at h
  have hp := chAt_ne_lt input p hne
  rw [drop_eq_chAt_cons input p hp, digitTake, if_pos h]
  simp

theorem keywordToken_literal (lit : List Char) : (keywordToken lit).literal = lit := by
  unfold keywordToken
  split_ifs <;> rfl

theorem keywordToken_ttype_ne_eof (lit : List Char) :
    (keywordToken lit).ttype ≠ TokenType.Eof := by
  unfold keywordToken
  split_ifs <;> simp

theorem charClass_nul : charClass '\x00' = CharClass.sentinel := by decide

theorem charClass_spec (c : Char) :
    (charClass c = CharClass.sentinel → c = '\x00') ∧
    (charClass c = CharClass.identStart → isIdentStart c = true) ∧
    (charClass c = CharClass.digit → c.isDigit = true) ∧
    (charClass c = CharClass.quote → c = '"') := by
  unfold charClass
  by_cases h1 : c = '+'
  · simp [h1]
  rw [if_neg h1]
  by_cases h2 : c = '-'
  · simp [h2]
  rw [if_neg h2]
  by_cases h3 : c = '*'
  · simp [h3]
  rw [if_neg h3]
  by_cases h4 : c = '/'
  · simp [h4]
  rw [if_neg h4]
  by_cases h5 : c = '?'
  · simp [h5]
  rw [if_neg h5]
  by_cases h6 : c = '%'
  · simp [h6]
  rw [if_neg h6]
  by_cases h7 : c = '='
  · simp [h7]
  rw [if_neg h7]
  by_cases h8 : c = '!'
  · simp [h8]
  rw [if_neg h8]
  by_cases h9 : c = '<'
  · simp [h9]
  rw [if_neg h9]
  by_cases h10 : c = '>'
  · simp [h10]
  rw [if_neg h10]
  by_cases h11 : c = ','
  · simp [h11]
  rw [if_neg h11]
  by_cases h12 : c = ';'
  · simp [h12]
  rw [if_neg h12]
  by_cases h13 : c = ':'
  · simp [h13]
  rw [if_neg h13]
  by_cases h14 : c = '('
  · simp [h14]
  rw [if_neg h14]
  by_cases h15 : c = ')'
  · simp [h15]
  rw [if_neg h15]
  by_cases h16 : c = '['
  · simp [h16]
  rw [if_neg h16]
  by_cases h17 : c = ']'
  · simp [h17]
  rw [if_neg h17]
  by_cases h18 : c = '{'
  · simp [h18]
  rw [if_neg h18]
  by_cases h19 : c = '}'
  · simp [h19]
  rw [if_neg h19]
  by_cases h20 : c = '\x00'
  · simp [h20]
  rw [if_neg h20]
  by_cases h21 : isIdentStart c = true
  · simp [h21]
  rw [if_neg h21]
  by_cases h22 : c.isDigit = true
  · simp [h22]
  rw [if_neg h22]
  by_cases h23 : c = '"'
  · simp [h23]
  rw [if_neg h23]
  simp

theorem charClass_sentinel_eq (c : Char) (h : charClass c = CharClass.sentinel) :
    c = '\x00' :=
  (charClass_spec c).1 h

theorem charClass_identStart (c : Char) (h : charClass c = CharClass.identStart) :
    isIdentStart c = true :=
  (charClass_spec c).2.1 h

theorem charClass_digit (c : Char) (h : charClass c = CharClass.digit) :
    c.isDigit = true :=
  (charClass_spec c).2.2.1 h

theorem charClass_quote (c : Char) (h : charClass c = CharClass.quote) :
    c = '"' :=
  (charClass_spec c).2.2.2 h

theorem charClass_ne_nul (c : Char) (k : CharClass) (hk : k ≠ CharClass.sentinel)
    (h : charClass c = k) : c ≠ '\x00' := by
  intro he
  subst he
  rw [charClass_nul] at h
  exact hk h.symm

theorem lexDispatch_advance (input : List Char) (p : Nat) (t : Token) (q : Nat)
    (h : lexDispatch input p = (t, q)) : p < q := by
  unfold lexDispatch at h
  cases hcc : charClass (chAt input p) <;> simp only [hcc] at h <;>
    first
    | (cases h; omega)
    | (split at h <;> cases h <;> omega)
    | (cases h
       have h1 := identTake_at_pos input p (charClass_identStart _ hcc)
       omega)
    | (cases h
       have h1 := digitTake_at_pos input p (charClass_digit _ hcc)
       omega)

theorem lexDispatch_eof_or (input : List Char) (p : Nat) (t : Token) (q : Nat)
    (hp : p ≤ input.length) (h : lexDispatch input p = (t, q)) :
    (t = ⟨TokenType.Eof, ['\x00']⟩ ∧ q = p + 1 ∧ chAt input p = '\x00') ∨
    (t.ttype ≠ TokenType.Eof ∧ q ≤ input.length) := by
  unfold lexDispatch at h
  cases hcc : charClass (chAt input p) <;> simp only [hcc] at h <;>
    first
    | (cases h
       exact Or.inl ⟨by rw [charClass_sentinel_eq _ hcc], rfl,
         charClass_sentinel_eq _ hcc⟩)
    | (cases h
       have h1 := chAt_ne_lt input p (charClass_ne_nul _ _ (by simp) hcc)
       exact Or.inr ⟨by simp, by omega⟩)
    | (split at h <;> cases h <;>
        first
        | (rename_i hpk
           have h1 := chAt_ne_lt input (p+1) (by rw [hpk]; decide)
           exact Or.inr ⟨by simp, by omega⟩)
        | (have h1 := chAt_ne_lt input p (charClass_ne_nul _ _ (by simp) hcc)
           exact Or.inr ⟨by simp, by omega⟩))
    | (cases h
       have h1 := identTake_length_le (input.drop p)
       simp only [List.length_drop] at h1
       exact Or.inr ⟨keywordToken_ttype_ne_eof _, by omega⟩)
    | (cases h
       have h1 := digitTake_length_le (input.drop p)
       simp only [List.length_drop] at h1
       exact Or.inr ⟨by simp, by omega⟩)
    | (cases h
       have h1 := chAt_ne_lt input p (charClass_ne_nul _ _ (by simp) hcc)
       have h2 := strScan_length_le (input.drop (p+1))
       simp only [List.length_drop] at h2
       exact Or.inr ⟨by split <;> simp, by omega⟩)

theorem lexDispatch_identifier (input : List Char) (p : Nat) (t : Token) (q : Nat)
    (h : lexDispatch input p = (t, q)) (ht : t.ttype = TokenType.Identifier) :
    t.literal = identTake (input.drop p) := by
  unfold lexDispatch at h
  cases hcc : charClass (chAt input p) <;> simp only [hcc] at h <;>
    first
    | (split at h <;> cases h <;> exact TokenType.noConfusion ht)
    | (cases h; exact TokenType.noConfusion ht)
    | (cases h; exact keywordToken_literal _)
    | (cases h; exfalso; revert ht; split <;> simp)

theorem lexNext_none (input : List Char) (pos : Nat) (h : input.length < pos) :
    lexNext input pos = (none, pos) := by
  have hd : input.drop pos = [] := List.drop_eq_nil_of_le (by omega)
  have hs : skipWs input pos = pos := by simp [skipWs, hd, wsCount]
  simp [lexNext, hs, h]

theorem lexNext_some_eq (input : List Char) (pos : Nat) (t : Token) (q : Nat)
    (h : lexNext input pos = (some t, q)) :
    skipWs input pos ≤ input.length ∧
      lexDispatch input (skipWs input pos) = (t, q) := by
  simp only [lexNext] at h
  split_ifs at h with hg
  · simp at h
  · simp only [Prod.mk.injEq, Option.some.injEq] at h
    exact ⟨by omega, Prod.ext h.1 h.2⟩

theorem lexNext_isSome (input : List Char) (pos : Nat) (hp : pos ≤ input.length) :
    ∃ t q, lexNext input pos = (some t, q) := by
  have hs := skipWs_le input pos hp
  simp only [lexNext]
  rw [if_neg (by omega)]
  exact ⟨_, _, rfl⟩

theorem lexGo_past (input : List Char) (fuel pos : Nat) (h : input.length < pos) :
    lexGo input fuel pos = [] := by
  cases fuel with
  | zero => rfl
  | succ f => rw [lexGo, lexNext_none input pos h]

theorem chAt_nul_past (input : List Char) (i : Nat) (hn : '\x00' ∉ input)
    (h : chAt input i = '\x00') : input.length ≤ i := by
  by_contra hc
  push_neg at hc
  rw [chAt, List.getD_eq_getElem input '\x00' hc] at h
  exact hn (h ▸ input.getElem_mem hc)

theorem lexGo_eof (input : List Char) (hn : '\x00' ∉ input) :
    ∀ fuel pos, pos ≤ input.length → input.length - pos < fuel →
    ∃ pre, lexGo input fuel pos = pre ++ [⟨TokenType.Eof, ['\x00']⟩] ∧
      ∀ t ∈ pre, t.ttype ≠ TokenType.Eof := by
  intro fuel
  induction fuel with
  | zero => intro pos _ hf; omega
  | succ f ih =>
    intro pos hpos hf
    obtain ⟨t, q, heq⟩ := lexNext_isSome input pos hpos
    obtain ⟨hsw, hd⟩ := lexNext_some_eq input pos t q heq
    have hstep : lexGo input (f+1) pos = t :: lexGo input f q := by
      rw [lexGo, heq]
    rw [hstep]
    rcases lexDispatch_eof_or input (skipWs input pos) t q hsw hd with
      ⟨ht, hq, hch⟩ | ⟨ht, hq⟩
    · have hge := chAt_nul_past input (skipWs input pos) hn hch
      have : q = input.length + 1 := by omega
      rw [lexGo_past input f q (by omega)]
      exact ⟨[], by simp [ht], by simp⟩
    · have hadv := lexDispatch_advance input (skipWs input pos) t q hd
      have hge := skipWs_ge input pos
      obtain ⟨pre, hpre, hmem⟩ := ih q hq (by omega)
      refine ⟨t :: pre, by simp [hpre], ?_⟩
      intro u hu
      rcases List.mem_cons.mp hu with h | h
      · exact h ▸ ht
      · exact hmem u h

theorem takeWhile_length_le (p : Char → Bool) (l : List Char) :
    (l.takeWhile p).length ≤ l.length := by
  induction l with
  | nil => simp
  | cons c r ih =>
    by_cases h : p c <;> simp [List.takeWhile, h] <;> omega

theorem strScan_illegal (l : List Char)
    (h : (l.dropWhile strKeep).head? ≠ some '"') :
    strScan l = (l.takeWhile strKeep, (l.takeWhile strKeep).length, false) := by
  induction l with
  | nil => simp [strScan]
  | cons c r ih =>
    by_cases h1 : c = '"'
    · exfalso
      apply h
      rw [List.dropWhile_cons_of_neg (by simp [strKeep, h1])]
      simp [h1]
    · by_cases h2 : c = '\x00' ∨ c = '\n'
      · have hk : strKeep c = false := by
          rcases h2 with h2 | h2 <;> simp [strKeep, h2]
        rw [strScan, if_neg h1, if_pos h2,
          List.takeWhile_cons_of_neg (by simp [hk])]
        simp
      · have hk : strKeep c = true := by
          simp [strKeep]
          tauto
        rw [List.dropWhile_cons_of_pos hk] at h
        have ih' := ih h
        rw [strScan, if_neg h1, if_neg h2, List.takeWhile_cons_of_pos hk, ih']
        simp

theorem lexNext_unterminated_string (input : List Char) (pos : Nat)
    (hq : chAt input pos = '"')
    (husc : ((input.drop (pos+1)).dropWhile strKeep).head? ≠ some '"') :
    lexNext input pos =
      (some ⟨TokenType.Illegal, '"' :: (input.drop (pos+1)).takeWhile strKeep⟩,
        pos + 1 + ((input.drop (pos+1)).takeWhile strKeep).length) ∧
    '"' ∉ (input.drop (pos+1)).takeWhile strKeep ∧
    pos + 1 + ((input.drop (pos+1)).takeWhile strKeep).length ≤ input.length ∧
    (lexNext input
      (pos + 1 + ((input.drop (pos+1)).takeWhile strKeep).length)).1.isSome
      = true := by
  have hlt : pos < input.length := chAt_ne_lt input pos (by rw [hq]; decide)
  have hsw : skipWs input pos = pos := skipWs_eq_self input pos (by rw [hq]; decide)
  have hcc : charClass (chAt input pos) = CharClass.quote := by rw [hq]; decide
  have hscan := strScan_illegal (input.drop (pos+1)) husc
  have htl := takeWhile_length_le strKeep (input.drop (pos+1))
  rw [List.length_drop] at htl
  have hdisp : lexDispatch input pos =
      (⟨TokenType.Illegal, '"' :: (input.drop (pos+1)).takeWhile strKeep⟩,
        pos + 1 + ((input.drop (pos+1)).takeWhile strKeep).length) := by
    unfold lexDispatch
    simp only [hcc]
    rw [hscan, hq]
    simp
  refine ⟨?_, ?_, ?_, ?_⟩
  · simp only [lexNext, hsw]
    rw [if_neg (by omega), hdisp]
  · intro hmem
    have hkeep := List.mem_takeWhile_imp hmem
    simp [strKeep] at hkeep
  · omega
  · obtain ⟨t, q, heq⟩ := lexNext_isSome input
      (pos + 1 + ((input.drop (pos+1)).takeWhile strKeep).length) (by omega)
    rw [heq]
    rfl

theorem lexNext_identifier_no_digit (input : List Char) (pos : Nat) (t : Token)
    (q : Nat) (h : lexNext input pos = (some t, q))
    (ht : t.ttype = TokenType.Identifier) :
    ∀ c ∈ t.literal, c.isDigit = false := by
  obtain ⟨hsw, hd⟩ := lexNext_some_eq input pos t q h
  have hlit := lexDispatch_identifier input (skipWs input pos) t q hd ht
  intro c hc
  rw [hlit] at hc
  have hmem := identTake_mem _ c hc
  rw [Bool.or_eq_true] at hmem
  rcases hmem with halpha | hund
  · exact isAlpha_not_digit c halpha
  · have hu : c = '_' := by simpa using hund
    subst hu
    decide

example : parserNew "a(".toList = stuckState := by decide

theorem parseExprLoop_stuck (fuel : Nat) :
    parseExprLoop fuel Precedence.Lowest stuckLeft stuckState = POut.diverge := by
  induction fuel with
  | zero => rfl
  | succ f ih => exact ih

theorem parseI64_in_range (s : List Char) (hne : s ≠ [])
    (hd : s.all Char.isDigit = true) :
    parseI64 s = some ((digitsToNat s : Nat) : Int) ↔
      digitsToNat s ≤ maxI64 := by
  unfold parseI64
  rw [if_neg hne, if_pos hd]
  constructor
  · intro h
    by_contra hc
    rw [if_neg (by omega)] at h
    cases h
  · intro h
    rw [if_pos h]

theorem parseInput_aparen_diverge (fuel : Nat) :
    parseInput fuel "a(".toList = POut.diverge := by
  match fuel with
  | 0 => rfl
  | 1 => rfl
  | 2 => rfl
  | 3 => rfl
  | 4 => rfl
  | n+5 =>
    have h1 : parseExpression (n+2) Precedence.Lowest stuckState = POut.diverge := by
      show parseExprLoop (n+1) Precedence.Lowest stuckLeft stuckState = POut.diverge
      exact parseExprLoop_stuck (n+1)
    have e2 : parseExpressionStatement (n+3) stuckState =
        (match parseExpression (n+2) Precedence.Lowest stuckState with
         | POut.ok expression s1 =>
             POut.ok
               (Statement.ExpressionStatement ⟨TokenType.Identifier, ['a']⟩ expression)
               (if peekTokenIs s1 TokenType.Semicolon then nextToken s1 else s1)
         | POut.err => POut.err
         | POut.panic => POut.panic
         | POut.diverge => POut.diverge) := rfl
    have h2 : parseExpressionStatement (n+3) stuckState = POut.diverge := by
      rw [e2, h1]
    have e4 : parseInput (n+5) "a(".toList =
        (match parseStatement (n+4) stuckState with
         | POut.ok stmt s1 => parseProgramLoop (n+4) ([] ++ [stmt]) (nextToken s1)
         | POut.err => POut.err
         | POut.panic => POut.panic
         | POut.diverge => POut.diverge) := rfl
    have e3 : parseStatement (n+4) stuckState =
        parseExpressionStatement (n+3) stuckState := rfl
    rw [e4, e3, h2]

theorem nextToken_cur (s : PState) : (nextToken s).curToken = s.peekToken := rfl

theorem parsePostExpr_wf (s : PState) (left e : Expression) (s1 : PState)
    (hcur : ∀ tok, s.curToken = some tok → isPostOp tok.ttype = true)
    (hl : wfExpr left = true)
    (h : parsePostExpr s left = POut.ok e s1) : wfExpr e = true := by
  unfold parsePostExpr at h
  cases hc : s.curToken with
  | none => rw [hc] at h; exact POut.noConfusion h
  | some tok =>
    rw [hc] at h
    cases h
    simp [wfExpr, hcur tok hc, hl]

theorem postfixFold_wf (s : PState) (left e : Expression) (s1 : PState)
    (hl : wfExpr left = true)
    (h : (match s.peekToken with
          | none => POut.panic
          | some pk =>
            if isPostOp pk.ttype then parsePostExpr (nextToken s) left
            else POut.ok left s) = POut.ok e s1) :
    wfExpr e = true := by
  cases hpk : s.peekToken with
  | none => rw [hpk] at h; exact POut.noConfusion h
  | some pk =>
    simp only [hpk] at h
    by_cases hpost : isPostOp pk.ttype = true
    · rw [if_pos hpost] at h
      refine parsePostExpr_wf (nextToken s) left e s1 ?_ hl h
      intro tok htok
      rw [nextToken_cur, hpk] at htok
      cases htok
      exact hpost
    · rw [if_neg hpost] at h
      cases h
      exact hl

theorem parser_wf (fuel : Nat) :
    (∀ tok s e s1, s.curToken = some tok →
      parsePrimary fuel tok s = POut.ok e s1 → wfExpr e = true) ∧
    (∀ prec left s e s1, wfExpr left = true →
      parseExprLoop fuel prec left s = POut.ok e s1 → wfExpr e = true) ∧
    (∀ s e s1, (∀ tok, s.curToken = some tok → isPreOp tok.ttype = true) →
      parsePreExpr fuel s = POut.ok e s1 → wfExpr e = true) ∧
    (∀ left s e s1, wfExpr left = true →
      (∀ tok, s.curToken = some tok → isBinOp tok.ttype = true) →
      parseBinExpr fuel left s = POut.ok e s1 → wfExpr e = true) ∧
    (∀ prec s e s1, parseExpression fuel prec s = POut.ok e s1 →
      wfExpr e = true) ∧
    (∀ s st s1, parseLetStatement fuel s = POut.ok st s1 → wfStmt st = true) ∧
    (∀ s st s1, parseReturnStatement fuel s = POut.ok st s1 →
      wfStmt st = true) ∧
    (∀ s st s1, parseExpressionStatement fuel s = POut.ok st s1 →
      wfStmt st = true) ∧
    (∀ s st s1, parseStatement fuel s = POut.ok st s1 → wfStmt st = true) ∧
    (∀ acc s p s1, acc.all wfStmt = true →
      parseProgramLoop fuel acc s = POut.ok p s1 → wfProgram p = true) := by
  induction fuel with
  | zero =>
    refine ⟨?_, ?_, ?_, ?_, ?_, ?_, ?_, ?_, ?_, ?_⟩ <;>
      (intros; rename_i h; exact POut.noConfusion h)
  | succ f ih =>
    obtain ⟨ihPrim, ihLoop, ihPre, ihBin, ihExpr, ihLet, ihRet, ihExprSt,
      ihStmt, ihProg⟩ := ih
    refine ⟨?_, ?_, ?_, ?_, ?_, ?_, ?_, ?_, ?_, ?_⟩
    · -- parsePrimary
      intro tok s e s1 htok h
      rw [parsePrimary] at h
      cases htt : tok.ttype <;> simp only [htt] at h <;>
        try exact POut.noConfusion h
      case Identifier => exact postfixFold_wf s _ e s1 (by rfl) h
      case Integer =>
        cases hI : parseI64 tok.literal with
        | none => rw [hI] at h; exact POut.noConfusion h
        | some v =>
          simp only [hI] at h
          exact postfixFold_wf s _ e s1 (by rfl) h
      case String => cases h; rfl
      case True => cases h; rfl
      case False => cases h; rfl
      case Bang =>
        cases hp : parsePreExpr f s with
        | ok l s' =>
          simp only [hp] at h
          cases h
          refine ihPre _ _ _ ?_ hp
          intro tok' htok'
          rw [htok] at htok'
          cases htok'
          rw [htt]
          rfl
        | err => rw [hp] at h; exact POut.noConfusion h
        | panic => rw [hp] at h; exact POut.noConfusion h
        | diverge => rw [hp] at h; exact POut.noConfusion h
      case Minus =>
        cases hp : parsePreExpr f s with
        | ok l s' =>
          simp only [hp] at h
          have hwl : wfExpr l = true := by
            refine ihPre _ _ _ ?_ hp
            intro tok' htok'
            rw [htok] at htok'
            cases htok'
            rw [htt]
            rfl
          exact postfixFold_wf s' l e s1 hwl h
        | err => rw [hp] at h; exact POut.noConfusion h
        | panic => rw [hp] at h; exact POut.noConfusion h
        | diverge => rw [hp] at h; exact POut.noConfusion h
      case Increment =>
        cases hp : parsePreExpr f s with
        | ok l s' =>
          simp only [hp] at h
          have hwl : wfExpr l = true := by
            refine ihPre _ _ _ ?_ hp
            intro tok' htok'
            rw [htok] at htok'
            cases htok'
            rw [htt]
            rfl
          exact postfixFold_wf s' l e s1 hwl h
        | err => rw [hp] at h; exact POut.noConfusion h
        | panic => rw [hp] at h; exact POut.noConfusion h
        | diverge => rw [hp] at h; exact POut.noConfusion h
      case Decrement =>
        cases hp : parsePreExpr f s with
        | ok l s' =>
          simp only [hp] at h
          have hwl : wfExpr l = true := by
            refine ihPre _ _ _ ?_ hp
            intro tok' htok'
            rw [htok] at htok'
            cases htok'
            rw [htt]
            rfl
          exact postfixFold_wf s' l e s1 hwl h
        | err => rw [hp] at h; exact POut.noConfusion h
        | panic => rw [hp] at h; exact POut.noConfusion h
        | diverge => rw [hp] at h; exact POut.noConfusion h
    · -- parseExprLoop
      intro prec left s e s1 hl h
      rw [parseExprLoop] at h
      by_cases hsemi : peekTokenIs s TokenType.Semicolon = true
      · rw [if_pos hsemi] at h
        cases h
        exact hl
      · rw [if_neg hsemi] at h
        cases hpk : s.peekToken with
        | none => rw [hpk] at h; exact POut.noConfusion h
        | some pk =>
          simp only [hpk] at h
          by_cases hprec : Precedence.lt prec (precedenceForOp pk.ttype) = true
          · rw [if_pos hprec] at h
            by_cases hbin : isBinOp pk.ttype = true
            · rw [if_pos hbin] at h
              cases hb : parseBinExpr f left (nextToken s) with
              | ok left2 s2 =>
                simp only [hb] at h
                refine ihLoop prec left2 s2 e s1 ?_ h
                refine ihBin left (nextToken s) left2 s2 hl ?_ hb
                intro tok' htok'
                rw [nextToken_cur, hpk] at htok'
                cases htok'
                exact hbin
              | err => rw [hb] at h; exact POut.noConfusion h
              | panic => rw [hb] at h; exact POut.noConfusion h
              | diverge => rw [hb] at h; exact POut.noConfusion h
            · rw [if_neg hbin] at h
              exact ihLoop prec left s e s1 hl h
          · rw [if_neg hprec] at h
            cases h
            exact hl
    · -- parsePreExpr
      intro s e s1 hcur h
      rw [parsePreExpr] at h
      cases hpk : s.peekToken with
      | none => rw [hpk] at h; exact POut.noConfusion h
      | some pk =>
        simp only [hpk] at h
        by_cases hstr : pk.ttype = TokenType.String
        · rw [if_pos hstr] at h
          exact POut.noConfusion h
        · rw [if_neg hstr] at h
          cases hc : s.curToken with
          | none => rw [hc] at h; exact POut.noConfusion h
          | some token =>
            simp only [hc] at h
            cases hrec : parseExpression f Precedence.Unary (nextToken s) with
            | ok right s' =>
              simp only [hrec] at h
              cases h
              simp [wfExpr, hcur token hc,
                ihExpr _ _ _ _ hrec]
            | err => rw [hrec] at h; exact POut.noConfusion h
            | panic => rw [hrec] at h; exact POut.noConfusion h
            | diverge => rw [hrec] at h; exact POut.noConfusion h
    · -- parseBinExpr
      intro left s e s1 hl hcur h
      rw [parseBinExpr] at h
      cases hc : s.curToken with
      | none => rw [hc] at h; exact POut.noConfusion h
      | some token =>
        simp only [hc] at h
        cases hrec : parseExpression f (precedenceForOp token.ttype)
            (nextToken s) with
        | ok right s' =>
          simp only [hrec] at h
          cases h
          simp [wfExpr, hcur token hc, hl,
            ihExpr _ _ _ _ hrec]
        | err => rw [hrec] at h; exact POut.noConfusion h
        | panic => rw [hrec] at h; exact POut.noConfusion h
        | diverge => rw [hrec] at h; exact POut.noConfusion h
    · -- parseExpression
      intro prec s e s1 h
      rw [parseExpression] at h
      cases hc : s.curToken with
      | none => rw [hc] at h; exact POut.noConfusion h
      | some current =>
        simp only [hc] at h
        cases hp : parsePrimary f current s with
        | ok left s' =>
          simp only [hp] at h
          exact ihLoop prec left s' e s1 (ihPrim current s left s' hc hp) h
        | err => rw [hp] at h; exact POut.noConfusion h
        | panic => rw [hp] at h; exact POut.noConfusion h
        | diverge => rw [hp] at h; exact POut.noConfusion h
    · -- parseLetStatement
      intro s st s1 h
      rw [parseLetStatement] at h
      cases hc : s.curToken with
      | none => rw [hc] at h; exact POut.noConfusion h
      | some token =>
        simp only [hc] at h
        cases he1 : expectPeek s TokenType.Identifier with
        | none => rw [he1] at h; exact POut.noConfusion h
        | some sa =>
          simp only [he1] at h
          cases hc2 : sa.curToken with
          | none => rw [hc2] at h; exact POut.noConfusion h
          | some nameTok =>
            simp only [hc2] at h
            cases he2 : expectPeek sa TokenType.Assign with
            | none => rw [he2] at h; exact POut.noConfusion h
            | some sb =>
              simp only [he2] at h
              cases hv : parseExpression f Precedence.Lowest (nextToken sb) with
              | ok value s3 =>
                simp only [hv] at h
                cases h
                exact ihExpr _ _ _ _ hv
              | err => rw [hv] at h; exact POut.noConfusion h
              | panic => rw [hv] at h; exact POut.noConfusion h
              | diverge => rw [hv] at h; exact POut.noConfusion h
    · -- parseReturnStatement
      intro s st s1 h
      rw [parseReturnStatement] at h
      cases hc : s.curToken with
      | none => rw [hc] at h; exact POut.noConfusion h
      | some token =>
        simp only [hc] at h
        cases hv : parseExpression f Precedence.Lowest (nextToken s) with
        | ok value s3 =>
          simp only [hv] at h
          cases h
          exact ihExpr _ _ _ _ hv
        | err => rw [hv] at h; exact POut.noConfusion h
        | panic => rw [hv] at h; exact POut.noConfusion h
        | diverge => rw [hv] at h; exact POut.noConfusion h
    · -- parseExpressionStatement
      intro s st s1 h
      rw [parseExpressionStatement] at h
      cases hc : s.curToken with
      | none => rw [hc] at h; exact POut.noConfusion h
      | some token =>
        simp only [hc] at h
        cases hv : parseExpression f Precedence.Lowest s with
        | ok value s3 =>
          simp only [hv] at h
          cases h
          exact ihExpr _ _ _ _ hv
        | err => rw [hv] at h; exact POut.noConfusion h
        | panic => rw [hv] at h; exact POut.noConfusion h
        | diverge => rw [hv] at h; exact POut.noConfusion h
    · -- parseStatement
      intro s st s1 h
      rw [parseStatement] at h
      cases hc : s.curToken with
      | none => rw [hc] at h; exact POut.noConfusion h
      | some token =>
        simp only [hc] at h
        cases htt : token.ttype <;> simp only [htt] at h <;>
          first
          | exact ihLet s st s1 h
          | exact ihRet s st s1 h
          | exact ihExprSt s st s1 h
    · -- parseProgramLoop
      intro acc s p s1 hacc h
      rw [parseProgramLoop] at h
      by_cases hcond : s.curToken ≠ none ∧ ¬ currentTokenIs s TokenType.Eof = true
      · rw [if_pos hcond] at h
        cases hst : parseStatement f s with
        | ok stmt s' =>
          simp only [hst] at h
          refine ihProg (acc ++ [stmt]) (nextToken s') p s1 ?_ h
          simp [List.all_append, hacc, ihStmt s stmt s' hst]
        | err => rw [hst] at h; exact POut.noConfusion h
        | panic => rw [hst] at h; exact POut.noConfusion h
        | diverge => rw [hst] at h; exact POut.noConfusion h
      · rw [if_neg hcond] at h
        cases h
        exact hacc

theorem okEta (r : POut Program) (h : r.isOk = true) :
    r = POut.ok (progOf r) (stateOf r) := by
  cases r with
  | ok p s => rfl
  | err => exact absurd h (by simp [POut.isOk])
  | panic => exact absurd h (by simp [POut.isOk])
  | diverge => exact absurd h (by simp [POut.isOk])

/-! ## Claim theorems -/

/-- C1: the claim that `parse_program` terminates on every input — one
bounded pass whose operator-folding loop always makes progress — fails
on the code: on the input `a(` the loop condition holds (the lookahead
`(` has `Call` precedence, above the `Lowest` minimum, and is not a
semicolon) but `(` is not an infix operator, so the loop body does
nothing and the state repeats forever.  The model returns the
fuel-exhaustion marker for every fuel bound. -/
theorem c1_parse_program_diverges_on_lparen (fuel : Nat) :
    parseInput fuel "a(".toList = POut.diverge :=
  parseInput_aparen_diverge fuel

/-- C2 counterexample: on a twenty-digit integer literal whose value
exceeds `i64::MAX`, `parse_program` panics (the
`parse::<i64>().unwrap()` in `parse_expression` fails) instead of
returning `Err`, so the claim that `parse_program` never panics — in
particular on digit runs beyond the i64 range — is false. -/
theorem c2_counterexample :
    parseInput 64 "99999999999999999999".toList = POut.panic := by decide

/-- C2 (amended): constructing an `IntegerLiteral` from an `Integer`
token succeeds exactly when the digit run's numeric value fits in
`i64`: for every nonempty all-digit literal, the modelled
`parse::<i64>()` returns its value precisely when that value is at most
`i64::MAX`; above the bound it returns `Err`, which the parser unwraps —
a panic, not an `Err` result. -/
theorem c2_integer_literal_range (s : List Char) (hne : s ≠ [])
    (hd : s.all Char.isDigit = true) :
    parseI64 s = some ((digitsToNat s : Nat) : Int) ↔
      digitsToNat s ≤ maxI64 :=
  parseI64_in_range s hne hd

/-- C2 witness: the single-digit literal `5` satisfies the hypotheses
and its conversion succeeds. -/
theorem c2_witness :
    ("5".toList ≠ [] ∧ "5".toList.all Char.isDigit = true) ∧
    (parseI64 "5".toList = some ((digitsToNat "5".toList : Nat) : Int) ↔
      digitsToNat "5".toList ≤ maxI64) :=
  ⟨⟨by decide, by decide⟩, c2_integer_literal_range "5".toList (by decide) (by decide)⟩

/-- C3: parsing `5 + 5 * 2;` succeeds with exactly one
`ExpressionStatement` rendering `(5 + (5 * 2));`, and `a + b * c`
renders `(a + (b * c));` — the product binds tighter than the sum. -/
theorem c3_product_binds_tighter :
    (parseInput 64 "5 + 5 * 2;".toList).isOk = true ∧
    (progOf (parseInput 64 "5 + 5 * 2;".toList)).statements.length = 1 ∧
    (progOf (parseInput 64 "5 + 5 * 2;".toList)).statements.all
      isExprStatement = true ∧
    (progOf (parseInput 64 "5 + 5 * 2;".toList)).render
      = "(5 + (5 * 2));".toList ∧
    (parseInput 64 "a + b * c".toList).isOk = true ∧
    (progOf (parseInput 64 "a + b * c".toList)).render
      = "(a + (b * c));".toList := by
  decide

/-- C4: equal-precedence chains group left-associatively: `a - b - c`
parses successfully and renders `((a - b) - c);`. -/
theorem c4_left_associative :
    (parseInput 64 "a - b - c".toList).isOk = true ∧
    (progOf (parseInput 64 "a - b - c".toList)).render
      = "((a - b) - c);".toList := by
  decide

/-- C5: a postfix operator binds tighter than the enclosing infix
chain: `a++ + b` parses successfully and renders `((a++) + b);`. -/
theorem c5_postfix_binds_tighter :
    (parseInput 64 "a++ + b".toList).isOk = true ∧
    (progOf (parseInput 64 "a++ + b".toList)).render
      = "((a++) + b);".toList := by
  decide

/-- C6: every `Program` returned by a successful `parse_program` is
well-formed: no `Ternary` node occurs, every `Prefix` operator is one
of `! - ++ --`, every `Infix` operator one of
`+ - * / % == != < > <= >=`, and every `Postfix` operator `++`/`--`
(see `wfExpr`). -/
theorem c6_successful_parse_wellformed (fuel : Nat) (input : List Char)
    (p : Program) (s : PState) (h : parseInput fuel input = POut.ok p s) :
    wfProgram p = true :=
  (parser_wf fuel).2.2.2.2.2.2.2.2.2 [] (parserNew input) p s rfl h

/-- C6 witness: the program parsed from `5 + 5 * 2;` is well-formed. -/
theorem c6_witness :
    wfProgram (progOf (parseInput 64 "5 + 5 * 2;".toList)) = true :=
  c6_successful_parse_wellformed 64 "5 + 5 * 2;".toList
    (progOf (parseInput 64 "5 + 5 * 2;".toList))
    (stateOf (parseInput 64 "5 + 5 * 2;".toList))
    (okEta (parseInput 64 "5 + 5 * 2;".toList) (by decide))

/-- C7 counterexample: the claim quantifies over every input in which a
prefix-operator token (`! - ++ --`) is immediately followed by a
`String` token; on `a - "x"` the `-` is immediately followed by a
String token in the token stream, yet `parse_program` succeeds (the `-`
is consumed as an infix operator), so the universal claim is false. -/
theorem c7_counterexample :
    (lexTokens "a - \"x\"".toList).map Token.ttype =
      [TokenType.Identifier, TokenType.Minus, TokenType.String,
        TokenType.Eof] ∧
    (parseInput 64 "a - \"x\"".toList).isOk = true := by
  decide

/-- C7 (amended): applying a unary prefix operator to a string literal
is a parse error: whenever `parse_prefix_expression` runs with a
`String` lookahead token it returns `Err` — in particular `!"x"` fails
to parse.  (The original claim's quantification over every input with a
prefix-operator token immediately followed by a String token fails,
since `-`/`++`/`--` can be consumed as infix or postfix operators
instead.) -/
theorem c7_prefix_on_string_is_error :
    (∀ (fuel : Nat) (s : PState) (pk : Token), s.peekToken = some pk →
      pk.ttype = TokenType.String → parsePreExpr (fuel + 1) s = POut.err) ∧
    parseInput 64 "!\"x\"".toList = POut.err := by
  constructor
  · intro fuel s pk hpk hstr
    rw [parsePreExpr]
    simp only [hpk]
    rw [if_pos hstr]
  · decide

/-- C7 witness: a state whose current token is `!` and whose peek token
is the string `"x"` makes `parse_prefix_expression` fail. -/
theorem c7_witness :
    ((⟨[], 0, some ⟨TokenType.Bang, ['!']⟩,
        some ⟨TokenType.String, ['"', 'x', '"']⟩⟩ : PState).peekToken
      = some ⟨TokenType.String, ['"', 'x', '"']⟩) ∧
    parsePreExpr 1
      ⟨[], 0, some ⟨TokenType.Bang, ['!']⟩,
        some ⟨TokenType.String, ['"', 'x', '"']⟩⟩ = POut.err :=
  ⟨rfl, c7_prefix_on_string_is_error.1 0 _ _ rfl rfl⟩

/-- C8: when the lexer scans a string literal (cursor on the opening
quote) and the remaining input reaches end of input or a newline before
any closing quote, `next()` returns an `Illegal` token whose literal is
the opening quote followed by the partial text (no closing quote in
it), the cursor stays within bounds, and the following `next()` call
still produces a token — the lexical pass does not abort. -/
theorem c8_unterminated_string_illegal (input : List Char) (pos : Nat)
    (hq : chAt input pos = '"')
    (husc : ((input.drop (pos+1)).dropWhile strKeep).head? ≠ some '"') :
    lexNext input pos =
      (some ⟨TokenType.Illegal, '"' :: (input.drop (pos+1)).takeWhile strKeep⟩,
        pos + 1 + ((input.drop (pos+1)).takeWhile strKeep).length) ∧
    '"' ∉ (input.drop (pos+1)).takeWhile strKeep ∧
    pos + 1 + ((input.drop (pos+1)).takeWhile strKeep).length ≤ input.length ∧
    (lexNext input
      (pos + 1 + ((input.drop (pos+1)).takeWhile strKeep).length)).1.isSome
      = true :=
  lexNext_unterminated_string input pos hq husc

/-- C8 witness: on the input `"ab` (opening quote never closed) the
lexer yields `Illegal` with literal `"ab` and keeps producing tokens. -/
theorem c8_witness :
    (chAt "\"ab".toList 0 = '"' ∧
      ((("\"ab".toList).drop 1).dropWhile strKeep).head? ≠ some '"') ∧
    (lexNext "\"ab".toList 0 =
      (some ⟨TokenType.Illegal,
        '"' :: (("\"ab".toList).drop 1).takeWhile strKeep⟩,
        0 + 1 + ((("\"ab".toList).drop 1).takeWhile strKeep).length) ∧
    '"' ∉ (("\"ab".toList).drop 1).takeWhile strKeep ∧
    0 + 1 + ((("\"ab".toList).drop 1).takeWhile strKeep).length
      ≤ ("\"ab".toList).length ∧
    (lexNext "\"ab".toList
      (0 + 1 + ((("\"ab".toList).drop 1).takeWhile strKeep).length)).1.isSome
      = true) :=
  ⟨⟨by decide, by decide⟩,
    c8_unterminated_string_illegal "\"ab".toList 0 (by decide) (by decide)⟩

/-- C9: identifier tokens never contain digits — identifier scanning
continues only while the character is alphabetic or an underscore — and
the input `a1` lexes as `Identifier "a"` followed by `Integer "1"`
followed by `Eof`, not as a single identifier. -/
theorem c9_identifier_tokens_no_digits :
    (∀ (input : List Char) (pos : Nat) (t : Token) (q : Nat),
      lexNext input pos = (some t, q) → t.ttype = TokenType.Identifier →
      ∀ c ∈ t.literal, c.isDigit = false) ∧
    lexTokens "a1".toList =
      [⟨TokenType.Identifier, ['a']⟩, ⟨TokenType.Integer, ['1']⟩,
        ⟨TokenType.Eof, ['\x00']⟩] :=
  ⟨lexNext_identifier_no_digit, by decide⟩

/-- C9 witness: the character of the identifier token produced at the
start of `a1` is not a digit. -/
theorem c9_witness : ('a').isDigit = false :=
  c9_identifier_tokens_no_digits.1 "a1".toList 0
    ⟨TokenType.Identifier, ['a']⟩ 1 (by decide) rfl 'a' (by decide)

/-- C10 counterexample: the claim that every source string's token
sequence ends with exactly one `Eof` fails when the source contains a
literal NUL character — NUL is the in-band end-of-input sentinel, so
the input `"\x00a"` produces two `Eof` tokens. -/
theorem c10_counterexample :
    (lexTokens ['\x00', 'a']).countP
      (fun t => decide (t.ttype = TokenType.Eof)) = 2 := by
  decide

/-- C10 (amended): for every source string containing no NUL character,
the lexer's token sequence is finite and ends with exactly one `Eof`
token (no earlier token is `Eof`), and once the cursor has advanced
past the sentinel every call to `next()` returns `None`. -/
theorem c10_single_trailing_eof (input : List Char) (hn : '\x00' ∉ input) :
    (∃ pre, lexTokens input = pre ++ [⟨TokenType.Eof, ['\x00']⟩] ∧
      ∀ t ∈ pre, t.ttype ≠ TokenType.Eof) ∧
    (∀ pos, input.length < pos → lexNext input pos = (none, pos)) := by
  refine ⟨lexGo_eof input hn (input.length + 2) 0 (by omega) (by omega), ?_⟩
  intro pos hpos
  exact lexNext_none input pos hpos

/-- C10 witness: the input `a` contains no NUL, and the call after the
`Eof` position returns `None`. -/
theorem c10_witness :
    ('\x00' ∉ "a".toList) ∧ lexNext "a".toList 2 = (none, 2) :=
  ⟨by decide, (c10_single_trailing_eof "a".toList (by decide)).2 2 (by decide)⟩
